import Mathlib

/-!
Verification development for the confab configuration-management tool.

We give a shallow embedding of the pieces of the code base that the
specification talks about: the nested configuration-data values and
their deep merge, the host/role resolution algorithm, the
`ConfFileDiff` classification, the per-file generate/pull/push
operations and the `ConfFiles.push` pipeline, the `DataLoader`
scope machinery, and the `import_configuration` directory search.
Pure functions of the source become Lean functions; filesystem and
remote effects become explicit state passing over maps
`String → Option content`.
-/

namespace Confab

/-- Association-list lookup used to model Python `dict` lookup:
returns the value of the first entry with the given key. -/
def alookup {α : Type} (k : String) : List (String × α) → Option α
  | [] => none
  | kv :: rest => if kv.1 = k then some kv.2 else alookup k rest

/-- Nested configuration data: a Python value is either an atomic
scalar (string leaf) or a dictionary, modelled as an association
list to keep merge order observable. -/
inductive Value where
  | leaf : String → Value
  | dict : List (String × Value) → Value

mutual

/-- Modelled from the spec: `confab.merge.merge` (merge.py is not part
of the provided sources).  Per spec §4.2: keys from the right override
matching keys from the left, recursing when both sides hold a mapping
at that key; otherwise the right value replaces the left wholesale. -/
def Value.merge : Value → Value → Value
  | Value.dict l, Value.dict r =>
      Value.dict (mergeLeft l r ++ r.filter (fun kv => (alookup kv.1 l).isNone))
  | _, r => r

/-- For each entry of the left dict, pair it with the merge of the
matching right entry when one exists. -/
def mergeLeft : List (String × Value) → List (String × Value) → List (String × Value)
  | [], _ => []
  | kv :: rest, r =>
      (match alookup kv.1 r with
       | some w => (kv.1, Value.merge kv.2 w)
       | none => kv) :: mergeLeft rest r

end

/-- Lookup a top-level key of a value (none on a scalar). -/
def Value.lookup : Value → String → Option Value
  | Value.leaf _, _ => none
  | Value.dict l, k => alookup k l

/-- How one merge step acts on the value found at a fixed key. -/
def optMerge : Option Value → Option Value → Option Value
  | a, none => a
  | none, some y => some y
  | some x, some y => some (x.merge y)

/-! ## Host and role resolution (confab.resolve) -/

/-- The environment and role catalogs (`env.environmentdefs` and
`env.roledefs`). -/
structure Catalogs where
  environmentdefs : List (String × List String)
  roledefs : List (String × List String)

/-- The full actual role set of a host: the names of all roles whose
host list contains the host. -/
def hostRoles (cat : Catalogs) (h : String) : List String :=
  (cat.roledefs.filter (fun rd => h ∈ rd.2)).map (fun rd => rd.1)

/-- Modelled from the spec: case 2 of the resolution algorithm
(resolve.py is not part of the provided sources; spec §4.1).  Each
explicit host is mapped to its full actual role set; a host unknown to
the role catalog (empty role set) is a resolution error.  The
environment is not consulted. -/
def resolveExplicitHosts (cat : Catalogs) : List String → Except String (List (String × List String))
  | [] => Except.ok []
  | h :: rest =>
    let actual := hostRoles cat h
    if actual.isEmpty then Except.error ("unknown host " ++ h)
    else
      match resolveExplicitHosts cat rest with
      | Except.error e => Except.error e
      | Except.ok tl => Except.ok ((h, actual) :: tl)

/-- Modelled from the spec: case 1 of the resolution algorithm
(spec §4.1): with both hosts and roles explicit the environment is not
consulted; each host must be known and must have a non-empty
intersection with the explicit role set. -/
def resolveHostsWithRoles (cat : Catalogs) (roles : List String) :
    List String → Except String (List (String × List String))
  | [] => Except.ok []
  | h :: rest =>
    let actual := hostRoles cat h
    if actual.isEmpty then Except.error ("unknown host " ++ h)
    else
      let inter := actual.filter (fun r => r ∈ roles)
      if inter.isEmpty then Except.error ("no matching role for " ++ h)
      else
        match resolveHostsWithRoles cat roles rest with
        | Except.error e => Except.error e
        | Except.ok tl => Except.ok ((h, inter) :: tl)

/-- Modelled from the spec: cases 3 and 4 need the environment to
resolve to a non-empty host list. -/
def environmentHosts (cat : Catalogs) (envName : String) : Except String (List String) :=
  match alookup envName cat.environmentdefs with
  | none => Except.error ("unknown environment " ++ envName)
  | some [] => Except.error ("empty environment " ++ envName)
  | some hs => Except.ok hs

/-- Modelled from the spec: `resolve_hosts_and_roles` (resolve.py is
not part of the provided sources; spec §4.1, four cases in priority
order). -/
def resolveHostsAndRoles (cat : Catalogs) (envName : String)
    (hosts roles : List String) : Except String (List (String × List String)) :=
  if hosts.isEmpty then
    match environmentHosts cat envName with
    | Except.error e => Except.error e
    | Except.ok envHosts =>
      if roles.isEmpty then
        Except.ok ((envHosts.map (fun h => (h, hostRoles cat h))).filter
          (fun p => !p.2.isEmpty))
      else
        if roles.all (fun r => (alookup r cat.roledefs).isSome) then
          let roleHosts := roles.foldl (fun acc r =>
            acc ++ ((alookup r cat.roledefs).getD [])) []
          let candidates := envHosts.filter (fun h => h ∈ roleHosts)
          Except.ok ((candidates.map (fun h =>
            (h, (hostRoles cat h).filter (fun r => r ∈ roles)))).filter
              (fun p => !p.2.isEmpty))
        else Except.error "unknown role"
  else
    if roles.isEmpty then resolveExplicitHosts cat hosts
    else resolveHostsWithRoles cat roles hosts

/-! ## Diff classification (ConfFileDiff) -/

/-- The state `ConfFileDiff.__init__` leaves behind: the two missing
flags and the computed diff lines. -/
structure ConfFileDiff where
  missing_generated : Bool
  missing_remote : Bool
  diff_lines : List String

/-- `ConfFileDiff.__init__`: determine missing files from the local
filesystem `fs` (path to content lines) and, when both copies exist,
run the external line-diff collaborator `diffFn` on remote then
generated contents. -/
def confFileDiffInit (fs : String → Option (List String))
    (diffFn : List String → List String → List String)
    (remoteFileName generatedFileName : String) : ConfFileDiff :=
  let missingGen := (fs generatedFileName).isNone
  let missingRem := (fs remoteFileName).isNone
  { missing_generated := missingGen
    missing_remote := missingRem
    diff_lines :=
      if !missingGen && !missingRem then
        diffFn ((fs remoteFileName).getD []) ((fs generatedFileName).getD [])
      else [] }

/-- `ConfFileDiff.__nonzero__`: truthiness of a diff. -/
def ConfFileDiff.nonzero (d : ConfFileDiff) : Bool :=
  if d.missing_generated then !d.missing_remote
  else if d.missing_remote then true
  else d.diff_lines.length != 0

/-! ## ConfFile operations and the push pipeline -/

/-- `os.sep.join([d, n])`. -/
def joinPath (d n : String) : String := d ++ "/" ++ n

/-- One configuration file of a `ConfFiles` set: its rendered logical
name and the content its `generate` writes locally (the rendering
itself is modelled separately for the generate claim). -/
structure ConfFileM where
  name : String
  rendered : List String
deriving DecidableEq

/-- `self.remote = os.sep + self.name`. -/
def ConfFileM.remote (c : ConfFileM) : String := "/" ++ c.name

/-- The world a host pipeline acts on: the local scratch filesystem
and the remote host filesystem, both path → content lines. -/
structure SyncState where
  localFs : String → Option (List String)
  remoteFs : String → Option (List String)

/-- `ConfFile.pull`: clear any stale local copy, then copy the remote
file into the local remotes directory only when the remote collaborator
reports that the remote path exists; the returned flag records whether
the remote file was missing (the "Not found" status message). -/
def filePull (remotesDir : String) (c : ConfFileM) (st : SyncState) : SyncState × Bool :=
  let p := joinPath remotesDir c.name
  let cleared := fun q => if q = p then none else st.localFs q
  match st.remoteFs c.remote with
  | some content =>
      ({ st with localFs := fun q => if q = p then some content else cleared q }, false)
  | none => ({ st with localFs := cleared }, true)

/-- `ConfFile.generate` as seen by the push pipeline: write the file's
generated content at its path in the generated directory. -/
def fileGenerate (generatedDir : String) (c : ConfFileM) (st : SyncState) : SyncState :=
  { st with localFs := fun q =>
      if q = joinPath generatedDir c.name then some c.rendered else st.localFs q }

/-- `ConfFile.diff`: build the `ConfFileDiff` of the two local copies. -/
def fileDiffOf (diffFn : List String → List String → List String)
    (generatedDir remotesDir : String) (st : SyncState) (c : ConfFileM) : ConfFileDiff :=
  confFileDiffInit st.localFs diffFn (joinPath remotesDir c.name) (joinPath generatedDir c.name)

/-- `ConfFile.push`: transfer the local generated copy to the real
remote path. -/
def filePush (generatedDir : String) (c : ConfFileM) (st : SyncState) : SyncState :=
  { st with remoteFs := fun q =>
      if q = c.remote then st.localFs (joinPath generatedDir c.name) else st.remoteFs q }

/-- Outcome of `ConfFiles.push`: final world, whether the interactive
confirmation prompt was shown, which files were pushed, and whether
the "No configuration files to push" message was printed. -/
structure PushResult where
  state : SyncState
  prompted : Bool
  pushed : List ConfFileM
  nothingMsg : Bool

/-- The state after the pull loop of `ConfFiles.push` / `ConfFiles.diff`. -/
def pulledState (hostRem : String) (conffiles : List ConfFileM) (st : SyncState) : SyncState :=
  conffiles.foldl (fun s c => (filePull hostRem c s).1) st

/-- The state after the generate loop of `ConfFiles.push` / `ConfFiles.diff`. -/
def generatedState (hostGen : String) (conffiles : List ConfFileM) (st : SyncState) : SyncState :=
  conffiles.foldl (fun s c => fileGenerate hostGen c s) st

/-- The `with_diffs` list of `ConfFiles.push`: the files whose diff is
truthy. -/
def changedFiles (diffFn : List String → List String → List String)
    (hostGen hostRem : String) (conffiles : List ConfFileM) (st : SyncState) :
    List ConfFileM :=
  conffiles.filter (fun c => (fileDiffOf diffFn hostGen hostRem st c).nonzero)

/-- `ConfFiles.push`: pull every file, generate every file, keep the
files whose diff is truthy; when none, report and stop; otherwise push
exactly those files when the assume-yes flag is set or the user
confirms (the prompt defaults to no, so pushing requires an explicit
yes answer). -/
def confFilesPush (diffFn : List String → List String → List String)
    (generatedDir remotesDir host : String) (conffiles : List ConfFileM)
    (assumeYes userAnswer : Bool) (st : SyncState) : PushResult :=
  let hostGen := joinPath generatedDir host
  let hostRem := joinPath remotesDir host
  let st2 := generatedState hostGen conffiles (pulledState hostRem conffiles st)
  let withDiffs := changedFiles diffFn hostGen hostRem conffiles st2
  if withDiffs.isEmpty then
    { state := st2, prompted := false, pushed := [], nothingMsg := true }
  else if assumeYes || userAnswer then
    { state := withDiffs.foldl (fun s c => filePush hostGen c s) st2
      prompted := !assumeYes, pushed := withDiffs, nothingMsg := false }
  else
    { state := st2, prompted := true, pushed := [], nothingMsg := false }

/-- Character-level list prefix test (kept executable down to the
kernel). -/
def charsPre : List Char → List Char → Bool
  | [], _ => true
  | _ :: _, [] => false
  | a :: as, b :: bs => a == b && charsPre as bs

/-- Whether path `p` lies strictly under directory `d`. -/
def underDir (d p : String) : Bool := charsPre (d ++ "/").data p.data

/-- `ConfFiles.generate`: clear the host's generated directory as a
whole, then generate every file into it (`_clear_dir` then per-file
`generate`). -/
def confFilesGenerate (generatedDir host : String) (conffiles : List ConfFileM)
    (st : SyncState) : SyncState :=
  let hostGen := joinPath generatedDir host
  let cleared : SyncState :=
    { st with localFs := fun p => if underDir hostGen p then none else st.localFs p }
  conffiles.foldl (fun s c => fileGenerate hostGen c s) cleared

/-- `ConfFiles.pull`: pull every file into the host's remotes
directory; the directory itself is not cleared, each file only clears
its own stale copy. -/
def confFilesPull (remotesDir host : String) (conffiles : List ConfFileM)
    (st : SyncState) : SyncState :=
  let hostRem := joinPath remotesDir host
  conffiles.foldl (fun s c => (filePull hostRem c s).1) st

/-! ## ConfFile.generate with metadata -/

/-- Filesystem metadata carried by `shutil.copy2` / `shutil.copystat`:
permissions and timestamps. -/
structure Stat where
  mode : Nat
  times : Nat
deriving DecidableEq

/-- A local file with content and metadata. -/
structure GFile where
  content : String
  stat : Stat
deriving DecidableEq

/-- A local filesystem with directories: `_ensure_dir` adds to
`dirs`. -/
structure GenFS where
  files : String → Option GFile
  dirs : List String

/-- `os.path.dirname`: the path up to the last separator. -/
def dirname (p : String) : String :=
  String.intercalate "/" (p.splitOn "/").dropLast

/-- The template collaborator data a `ConfFile.generate` consumes: the
source file path with its content and metadata, and the body rendered
against the merged data. -/
structure TemplateM where
  filename : String
  sourceContent : String
  sourceStat : Stat
  renderedBody : String

/-- `ConfFile.generate`: ensure the parent directory exists, then
either copy the source verbatim with metadata (`shutil.copy2`, for a
non-renderable MIME classification) or write the rendered body plus a
single newline and copy the source metadata (`shutil.copystat`). -/
def confFileGenerate (generatedDir name : String) (tmpl : TemplateM)
    (shouldRender : Bool) (fs : GenFS) : GenFS :=
  let p := joinPath generatedDir name
  let withDir := dirname p :: fs.dirs
  if shouldRender then
    { files := fun q => if q = p then
        some { content := tmpl.renderedBody ++ "\n", stat := tmpl.sourceStat }
      else fs.files q
      dirs := withDir }
  else
    { files := fun q => if q = p then
        some { content := tmpl.sourceContent, stat := tmpl.sourceStat }
      else fs.files q
      dirs := withDir }

/-! ## DataLoader -/

/-- The component definition a data-loader invocation receives. -/
structure ComponentDef where
  name : String
  role : String
  environment : String
  host : String

/-- `DataLoader._list_modules`: the fixed scope order with the role
scope dropped when the role name equals the component name, filtered to
the configured data modules. -/
def listModules (dataModules : List String) (c : ComponentDef) : List (String × String) :=
  let moduleNames : List (String × Option String) :=
    [("default", some "default"),
     ("component", some c.name),
     ("role", if c.role ≠ c.name then some c.role else none),
     ("environment", some c.environment),
     ("host", some c.host)]
  moduleNames.filterMap (fun p =>
    match p.2 with
    | some n => if p.1 ∈ dataModules then some (p.1, n) else none
    | none => none)

/-- The five scope names (`DataLoader.ALL`). -/
def dataLoaderALL : List String := ["default", "component", "role", "environment", "host"]

/-- A registered hook: a producer from module name to data and a
filter predicate over the component definition. -/
def Hooks : Type := String → List ((String → Value) × (ComponentDef → Bool))

/-- The `load_module` closure of `DataLoader.__call__`: the scope's
imported configuration merged with the outputs of its accepted hooks,
in registration order.  `importCfg scope name` abstracts
`import_configuration(name, *data_dirs, scope=scope)`. -/
def loadModuleOf (importCfg : String → String → Value) (hooks : Hooks)
    (c : ComponentDef) (p : String × String) : Value :=
  ((((hooks p.1).filter (fun h => h.2 c)).map (fun h => h.1 p.2))).foldl
    Value.merge (importCfg p.1 p.2)

/-- The list `module_dicts` of `DataLoader.__call__`. -/
def moduleDictsOf (importCfg : String → String → Value) (hooks : Hooks)
    (dataModules : List String) (c : ComponentDef) : List Value :=
  (listModules dataModules c).map (loadModuleOf importCfg hooks c)

/-- The `confab` metadata dictionary built by `DataLoader.__call__`. -/
def confabMeta (c : ComponentDef) : Value :=
  Value.dict [("environment", Value.leaf c.environment),
              ("host", Value.leaf c.host),
              ("role", Value.leaf c.role),
              ("component", Value.leaf c.name)]

/-- `DataLoader.__call__`: merge the confab metadata with every scope
dictionary, later scopes overriding earlier ones. -/
def dataLoaderCall (importCfg : String → String → Value) (hooks : Hooks)
    (dataModules : List String) (c : ComponentDef) : Value :=
  (moduleDictsOf importCfg hooks dataModules c).foldl Value.merge
    (Value.dict [("confab", confabMeta c)])

/-! ## import_configuration -/

/-- Outcome of asking the module collaborator (or the template loader)
for a module in one directory: found and loaded, not found, or found
but broken. -/
inductive LoadOutcome where
  | ok : Value → LoadOutcome
  | notFound : LoadOutcome
  | broken : LoadOutcome

/-- The two failure modes of configuration loading: the module was
missing everywhere it was looked for, or it exists but failed to
import. -/
inductive LoadErr where
  | moduleNotFound : LoadErr
  | loadError : LoadErr
deriving DecidableEq

/-- `_import_configuration`: try the directly loadable module first
(`imp`); when it is found but broken, re-raise; only when it is absent,
fall back to the template form (`tmpl`, rendered with an empty context
then loaded as source); when that is absent too, signal
`ModuleNotFound`. -/
def importConfigurationDir (imp tmpl : String → String → LoadOutcome)
    (name dir : String) : Except LoadErr Value :=
  match imp name dir with
  | LoadOutcome.ok v => Except.ok v
  | LoadOutcome.broken => Except.error LoadErr.loadError
  | LoadOutcome.notFound =>
    match tmpl name dir with
    | LoadOutcome.ok v => Except.ok v
    | LoadOutcome.broken => Except.error LoadErr.loadError
    | LoadOutcome.notFound => Except.error LoadErr.moduleNotFound

/-- The `add_scope` helper of `import_configuration`: with a scope,
interleave each data directory with its scope subdirectory via
`zip` and `chain`. -/
def addScope (dataDirs : List String) : Option String → List String
  | none => dataDirs
  | some s =>
      ((dataDirs.zip (dataDirs.map (fun d => joinPath d s))).map
        (fun p => [p.1, p.2])).flatten

/-- The directory loop of `import_configuration`: the first directory
whose module loads supplies the whole mapping; `ModuleNotFound` moves
on to the next directory; a load error propagates; exhaustion yields
the empty mapping. -/
def importConfigurationGo (imp tmpl : String → String → LoadOutcome)
    (name : String) : List String → Except LoadErr Value
  | [] => Except.ok (Value.dict [])
  | d :: rest =>
    match importConfigurationDir imp tmpl name d with
    | Except.ok v => Except.ok v
    | Except.error LoadErr.loadError => Except.error LoadErr.loadError
    | Except.error LoadErr.moduleNotFound => importConfigurationGo imp tmpl name rest

/-- `import_configuration`. -/
def importConfiguration (imp tmpl : String → String → LoadOutcome)
    (name : String) (dataDirs : List String) (scope : Option String) :
    Except LoadErr Value :=
  importConfigurationGo imp tmpl name (addScope dataDirs scope)

/-! ## Concrete catalogs (from the resolution test fixtures) -/

/-- The catalogs used by the resolution tests. -/
def testCat : Catalogs :=
  { environmentdefs :=
      [("test1", ["host1", "host2", "host3"]),
       ("test2", ["host2", "host3"]),
       ("test3", [])]
    roledefs :=
      [("role1", ["host1", "host2", "host3"]),
       ("role2", ["host2", "host3"])] }

/-- Concrete scope modules for the C5 witness: the host scope defines
`k` as `hv`, every scope defines `only` nowhere except default. -/
def c5importCfg : String → String → Value := fun scope _ =>
  if scope = "host" then Value.dict [("k", Value.leaf "hv")]
  else if scope = "default" then
    Value.dict [("k", Value.leaf "dv"), ("only", Value.leaf "base")]
  else Value.dict []

/-- The component definition for the C5 witness (role differs from
component name, so all five scopes load). -/
def c5def : ComponentDef := ⟨"comp", "r1", "env", "h1"⟩

/-! ## Theorems -/

theorem alookup_append {α : Type} (k : String) (a b : List (String × α)) :
    alookup k (a ++ b) = ((alookup k a).rec (alookup k b) (fun v => some v)) := by
  induction a with
  | nil => simp [alookup]
  | cons kv rest ih =>
    by_cases h : kv.1 = k <;> simp [alookup, h, ih]

theorem alookup_mergeLeft (l r : List (String × Value)) (k : String) :
    alookup k (mergeLeft l r) =
      (alookup k l).map (fun v =>
        match alookup k r with
        | some w => v.merge w
        | none => v) := by
  induction l with
  | nil => simp [alookup, mergeLeft]
  | cons kv rest ih =>
    by_cases h : kv.1 = k
    · cases hr : alookup k r <;>
        simp [mergeLeft, alookup, h, hr]
    · cases hw : alookup kv.1 r <;>
        simp [mergeLeft, alookup, h, hw, ih]

theorem alookup_filter_not_in_left (l r : List (String × Value)) (k : String) :
    alookup k (r.filter (fun kv => (alookup kv.1 l).isNone)) =
      if (alookup k l).isNone then alookup k r else none := by
  induction r with
  | nil => simp [alookup]
  | cons kv rest ih =>
    by_cases h : kv.1 = k
    · subst h
      cases hl : alookup kv.1 l <;>
        simp [List.filter, alookup, hl, ih]
    · cases hkv : alookup kv.1 l <;>
        simp [List.filter, alookup, h, hkv, ih]

/-- Top-level lookup into the merge of two dicts: the right entry
wins, recursively merged with the left entry when both exist. -/
theorem lookup_merge_dict (a b : List (String × Value)) (k : String) :
    (Value.merge (Value.dict a) (Value.dict b)).lookup k =
      match alookup k a, alookup k b with
      | some x, some y => some (x.merge y)
      | some x, none => some x
      | none, o => o := by
  show alookup k (mergeLeft a b ++ b.filter (fun kv => (alookup kv.1 a).isNone)) = _
  rw [alookup_append, alookup_mergeLeft, alookup_filter_not_in_left]
  cases ha : alookup k a <;> cases hb : alookup k b <;> simp

/-- C3: a `ConfFileDiff` is truthy exactly when precisely one of the
generated and remote copies is missing, or both are present and the
line-diff of their contents is non-empty; both-present-identical and
both-missing are falsy. -/
theorem c3_diff_truthiness (fs : String → Option (List String))
    (diffFn : List String → List String → List String)
    (remoteFileName generatedFileName : String) :
    (confFileDiffInit fs diffFn remoteFileName generatedFileName).nonzero = true ↔
      ((fs generatedFileName).isNone ∧ (fs remoteFileName).isSome) ∨
      ((fs generatedFileName).isSome ∧ (fs remoteFileName).isNone) ∨
      (∃ rc gc, fs remoteFileName = some rc ∧ fs generatedFileName = some gc ∧
        diffFn rc gc ≠ []) := by
  cases hg : fs generatedFileName <;> cases hr : fs remoteFileName <;>
    simp [confFileDiffInit, ConfFileDiff.nonzero, hg, hr, List.length_eq_zero]

/-- C3 witness: with both copies present and differing contents the
diff is truthy. -/
theorem c3_diff_truthiness_witness :
    (confFileDiffInit
      (fun p => if p = "r" then some ["a"] else if p = "g" then some ["b"] else none)
      (fun a b => if a = b then [] else ["changed"]) "r" "g").nonzero = true := by
  exact (c3_diff_truthiness _ _ "r" "g").mpr
    (Or.inr (Or.inr ⟨["a"], ["b"], by simp, by simp, by simp⟩))

theorem resolveExplicitHosts_ok (cat : Catalogs) (H : List String)
    (hknown : ∀ h ∈ H, hostRoles cat h ≠ []) :
    resolveExplicitHosts cat H =
      Except.ok (H.map (fun h => (h, hostRoles cat h))) := by
  induction H with
  | nil => rfl
  | cons h rest ih =>
    have h1 : (hostRoles cat h).isEmpty = false := by
      have := hknown h (List.mem_cons_self h rest)
      cases hh : hostRoles cat h
      · exact absurd hh this
      · rfl
    have h2 := ih (fun x hx => hknown x (List.mem_cons_of_mem _ hx))
    simp [resolveExplicitHosts, h1, h2]

/-- C2: resolving a non-empty list of known explicit hosts with no
explicit roles maps each host to its full actual role set and is
independent of the named environment (hosts need not belong to it). -/
theorem c2_explicit_hosts_ignore_environment (cat : Catalogs) (e1 e2 : String)
    (H : List String) (hne : H ≠ [])
    (hknown : ∀ h ∈ H, hostRoles cat h ≠ []) :
    resolveHostsAndRoles cat e1 H [] =
      Except.ok (H.map (fun h => (h, hostRoles cat h))) ∧
    resolveHostsAndRoles cat e1 H [] = resolveHostsAndRoles cat e2 H [] := by
  have hH : H.isEmpty = false := by
    cases H
    · exact absurd rfl hne
    · rfl
  constructor
  · simp [resolveHostsAndRoles, hH, resolveExplicitHosts_ok cat H hknown]
  · simp [resolveHostsAndRoles, hH]

/-- C2 witness: `host1` is outside environment `test2` yet resolving
it there succeeds with its full role set, the same as under `test1`. -/
theorem c2_explicit_hosts_ignore_environment_witness :
    resolveHostsAndRoles testCat "test2" ["host1"] [] =
      Except.ok [("host1", ["role1"])] ∧
    resolveHostsAndRoles testCat "test2" ["host1"] [] =
      resolveHostsAndRoles testCat "test1" ["host1"] [] := by
  have h := c2_explicit_hosts_ignore_environment testCat "test2" "test1" ["host1"]
    (by decide) (by decide)
  refine ⟨?_, h.2⟩
  rw [h.1]
  rfl

theorem addScope_some (dataDirs : List String) (s : String) :
    addScope dataDirs (some s) =
      dataDirs.flatMap (fun d => [d, joinPath d s]) := by
  induction dataDirs with
  | nil => rfl
  | cons d rest ih =>
    simp only [addScope, List.map_cons, List.zip_cons_cons, List.flatten, List.flatMap_cons] at *
    simpa using ih

theorem importConfigurationGo_skip (imp tmpl : String → String → LoadOutcome)
    (name : String) (pre rest : List String)
    (hpre : ∀ p ∈ pre, importConfigurationDir imp tmpl name p =
      Except.error LoadErr.moduleNotFound) :
    importConfigurationGo imp tmpl name (pre ++ rest) =
      importConfigurationGo imp tmpl name rest := by
  induction pre with
  | nil => rfl
  | cons p ps ih =>
    have hp := hpre p (List.mem_cons_self p ps)
    simp [importConfigurationGo, hp,
      ih (fun x hx => hpre x (List.mem_cons_of_mem _ hx))]

/-- C10: with a scope `s`, the searched directories are the
interleaving `D1, D1/s, D2, D2/s, …`; without a scope they are just
`D1, …, Dn`; and the first directory in that order whose module loads
supplies the whole result — directories after it are never consulted
(the result holds for every content of the later directories). -/
theorem c10_directory_search_order (dataDirs : List String) (s : String)
    (imp tmpl : String → String → LoadOutcome) (name : String)
    (pre post : List String) (d : String) (v : Value)
    (hpre : ∀ p ∈ pre, importConfigurationDir imp tmpl name p =
      Except.error LoadErr.moduleNotFound)
    (hd : importConfigurationDir imp tmpl name d = Except.ok v) :
    addScope dataDirs (some s) = dataDirs.flatMap (fun dd => [dd, joinPath dd s]) ∧
    addScope dataDirs none = dataDirs ∧
    importConfigurationGo imp tmpl name (pre ++ d :: post) = Except.ok v := by
  refine ⟨addScope_some dataDirs s, rfl, ?_⟩
  rw [importConfigurationGo_skip imp tmpl name pre (d :: post) hpre]
  simp [importConfigurationGo, hd]

/-- C10 witness: two data directories with scope `s` are searched in
interleaved order, and a hit in the first directory wins for every
later directory content. -/
theorem c10_directory_search_order_witness :
    addScope ["d1", "d2"] (some "s") = ["d1", "d1/s", "d2", "d2/s"] ∧
    importConfigurationGo (fun _ _ => LoadOutcome.ok (Value.dict []))
      (fun _ _ => LoadOutcome.notFound) "m" ["d1", "d1/s", "d2", "d2/s"] =
      Except.ok (Value.dict []) := by
  have h := c10_directory_search_order ["d1", "d2"] "s"
    (fun _ _ => LoadOutcome.ok (Value.dict []))
    (fun _ _ => LoadOutcome.notFound) "m" [] ["d1/s", "d2", "d2/s"] "d1"
    (Value.dict []) (by intro p hp; cases hp) rfl
  exact ⟨by rw [h.1]; rfl, h.2.2⟩

theorem importConfigurationGo_all_missing (imp tmpl : String → String → LoadOutcome)
    (name : String) (dirs : List String)
    (hmiss : ∀ d ∈ dirs, imp name d = LoadOutcome.notFound ∧
      tmpl name d = LoadOutcome.notFound) :
    importConfigurationGo imp tmpl name dirs = Except.ok (Value.dict []) := by
  induction dirs with
  | nil => rfl
  | cons d rest ih =>
    have hd := hmiss d (List.mem_cons_self d rest)
    simp [importConfigurationGo, importConfigurationDir, hd.1, hd.2,
      ih (fun x hx => hmiss x (List.mem_cons_of_mem _ hx))]

/-- C8: a module absent (in both forms) from every searched directory
yields the empty mapping and no error; a module found but broken —
directly or in template form — raises a load error distinct from
"not found"; and in each directory the direct form is tried first,
with the template form consulted only when the direct form is
absent. -/
theorem c8_missing_module_and_fallback (imp tmpl : String → String → LoadOutcome)
    (name : String) (dataDirs : List String) (scope : Option String)
    (dir : String) (v : Value) :
    ((∀ d ∈ addScope dataDirs scope, imp name d = LoadOutcome.notFound ∧
        tmpl name d = LoadOutcome.notFound) →
      importConfiguration imp tmpl name dataDirs scope = Except.ok (Value.dict [])) ∧
    (imp name dir = LoadOutcome.broken →
      importConfigurationDir imp tmpl name dir = Except.error LoadErr.loadError) ∧
    (imp name dir = LoadOutcome.notFound → tmpl name dir = LoadOutcome.broken →
      importConfigurationDir imp tmpl name dir = Except.error LoadErr.loadError) ∧
    (imp name dir = LoadOutcome.ok v →
      importConfigurationDir imp tmpl name dir = Except.ok v) ∧
    (imp name dir = LoadOutcome.notFound → tmpl name dir = LoadOutcome.ok v →
      importConfigurationDir imp tmpl name dir = Except.ok v) ∧
    LoadErr.loadError ≠ LoadErr.moduleNotFound := by
  refine ⟨?_, ?_, ?_, ?_, ?_, by simp⟩
  · intro hmiss
    exact importConfigurationGo_all_missing imp tmpl name _ hmiss
  · intro h; simp [importConfigurationDir, h]
  · intro h1 h2; simp [importConfigurationDir, h1, h2]
  · intro h; simp [importConfigurationDir, h]
  · intro h1 h2; simp [importConfigurationDir, h1, h2]

/-- C8 witness: a module absent everywhere yields the empty mapping,
and a present direct form wins over any template form. -/
theorem c8_missing_module_and_fallback_witness :
    importConfiguration (fun _ _ => LoadOutcome.notFound)
      (fun _ _ => LoadOutcome.notFound) "m" ["d1", "d2"] (some "s") =
      Except.ok (Value.dict []) ∧
    importConfigurationDir (fun _ _ => LoadOutcome.ok (Value.dict []))
      (fun _ _ => LoadOutcome.broken) "m" "d1" = Except.ok (Value.dict []) := by
  constructor
  · exact (c8_missing_module_and_fallback (fun _ _ => LoadOutcome.notFound)
      (fun _ _ => LoadOutcome.notFound) "m" ["d1", "d2"] (some "s") "d1"
      (Value.dict [])).1 (fun d _ => ⟨rfl, rfl⟩)
  · exact (c8_missing_module_and_fallback (fun _ _ => LoadOutcome.ok (Value.dict []))
      (fun _ _ => LoadOutcome.broken) "m" ["d1"] none "d1"
      (Value.dict [])).2.2.2.1 rfl

/-- Lookup at a key commutes with folding `Value.merge` over a list of
dictionaries: it is the fold of `optMerge` over the per-dict
lookups. -/
theorem lookup_foldl_merge (ds : List Value) (base : List (String × Value)) (k : String)
    (hds : ∀ d ∈ ds, ∃ l, d = Value.dict l) :
    (ds.foldl Value.merge (Value.dict base)).lookup k =
      (ds.map (fun d => d.lookup k)).foldl optMerge (alookup k base) := by
  induction ds generalizing base with
  | nil => rfl
  | cons d rest ih =>
    obtain ⟨l, rfl⟩ := hds d (List.mem_cons_self d rest)
    have hrest : ∀ x ∈ rest, ∃ m, x = Value.dict m :=
      fun x hx => hds x (List.mem_cons_of_mem _ hx)
    have hbase : Value.merge (Value.dict base) (Value.dict l) =
        Value.dict (mergeLeft base l ++ l.filter (fun kv => (alookup kv.1 base).isNone)) := by
      simp [Value.merge]
    have hstep : alookup k (mergeLeft base l ++
        l.filter (fun kv => (alookup kv.1 base).isNone)) =
        optMerge (alookup k base) (alookup k l) := by
      have := lookup_merge_dict base l k
      rw [hbase] at this
      simp only [Value.lookup] at this
      rw [this]
      cases alookup k base <;> cases alookup k l <;> simp [optMerge]
    calc ((Value.dict l :: rest).foldl Value.merge (Value.dict base)).lookup k
        = (rest.foldl Value.merge (Value.dict
            (mergeLeft base l ++ l.filter (fun kv => (alookup kv.1 base).isNone)))).lookup k := by
          rw [List.foldl_cons, hbase]
      _ = (rest.map (fun d => d.lookup k)).foldl optMerge
            (alookup k (mergeLeft base l ++
              l.filter (fun kv => (alookup kv.1 base).isNone))) := ih _ hrest
      _ = ((Value.dict l :: rest).map (fun d => d.lookup k)).foldl optMerge
            (alookup k base) := by
          rw [hstep]
          simp [Value.lookup]

theorem foldl_optMerge_all_none (opts : List (Option Value)) (a : Option Value)
    (h : ∀ o ∈ opts, o = none) :
    opts.foldl optMerge a = a := by
  induction opts generalizing a with
  | nil => rfl
  | cons o rest ih =>
    have ho := h o (List.mem_cons_self o rest)
    subst ho
    have : optMerge a none = a := by cases a <;> rfl
    rw [List.foldl_cons, this]
    exact ih a (fun x hx => h x (List.mem_cons_of_mem _ hx))

/-- C4: the data loader's result always carries a `confab` sub-key:
the fold of the scopes' own `confab` entries over the metadata
dictionary (environment, host, role, component), so each overriding
scope is merged key-by-key; when no scope defines `confab`, the
metadata survives untouched with all four values. -/
theorem c4_confab_metadata (importCfg : String → String → Value) (hooks : Hooks)
    (dataModules : List String) (c : ComponentDef)
    (hds : ∀ d ∈ moduleDictsOf importCfg hooks dataModules c, ∃ l, d = Value.dict l) :
    (dataLoaderCall importCfg hooks dataModules c).lookup "confab" =
      ((moduleDictsOf importCfg hooks dataModules c).map
        (fun d => d.lookup "confab")).foldl optMerge (some (confabMeta c)) ∧
    ((∀ d ∈ moduleDictsOf importCfg hooks dataModules c, d.lookup "confab" = none) →
      (dataLoaderCall importCfg hooks dataModules c).lookup "confab" =
        some (confabMeta c) ∧
      (confabMeta c).lookup "environment" = some (Value.leaf c.environment) ∧
      (confabMeta c).lookup "host" = some (Value.leaf c.host) ∧
      (confabMeta c).lookup "role" = some (Value.leaf c.role) ∧
      (confabMeta c).lookup "component" = some (Value.leaf c.name)) := by
  have hmain : (dataLoaderCall importCfg hooks dataModules c).lookup "confab" =
      ((moduleDictsOf importCfg hooks dataModules c).map
        (fun d => d.lookup "confab")).foldl optMerge (some (confabMeta c)) := by
    have := lookup_foldl_merge (moduleDictsOf importCfg hooks dataModules c)
      [("confab", confabMeta c)] "confab" hds
    simpa [dataLoaderCall, alookup] using this
  refine ⟨hmain, fun hnone => ⟨?_, by simp [confabMeta, Value.lookup, alookup],
    by simp [confabMeta, Value.lookup, alookup],
    by simp [confabMeta, Value.lookup, alookup],
    by simp [confabMeta, Value.lookup, alookup]⟩⟩
  rw [hmain]
  exact foldl_optMerge_all_none _ _ (by
    intro o ho
    rw [List.mem_map] at ho
    obtain ⟨d, hd, rfl⟩ := ho
    exact hnone d hd)

/-- C4 witness: with empty scope modules and no hooks the loader's
`confab` key is exactly the metadata dictionary. -/
theorem c4_confab_metadata_witness :
    (dataLoaderCall (fun _ _ => Value.dict []) (fun _ => []) dataLoaderALL
      ⟨"comp", "r1", "env", "h1"⟩).lookup "confab" =
      some (confabMeta ⟨"comp", "r1", "env", "h1"⟩) := by
  have hds : ∀ d ∈ moduleDictsOf (fun _ _ => Value.dict []) (fun _ => [])
      dataLoaderALL ⟨"comp", "r1", "env", "h1"⟩, ∃ l, d = Value.dict l := by
    intro d hd
    simp [moduleDictsOf, listModules, loadModuleOf, dataLoaderALL] at hd
    exact ⟨[], hd⟩
  exact ((c4_confab_metadata (fun _ _ => Value.dict []) (fun _ => []) dataLoaderALL
    ⟨"comp", "r1", "env", "h1"⟩ hds).2 (by
      intro d hd
      simp [moduleDictsOf, listModules, loadModuleOf, dataLoaderALL] at hd
      simp [hd, Value.lookup, alookup])).1

/-- The right operand of a merge wins wholesale when it is a
scalar. -/
theorem Value.merge_leaf (x : Value) (v : String) :
    Value.merge x (Value.leaf v) = Value.leaf v := by
  cases x <;> simp [Value.merge]

theorem foldl_optMerge_last_leaf (opts : List (Option Value)) (a : Option Value)
    (v : String) :
    (opts ++ [some (Value.leaf v)]).foldl optMerge a = some (Value.leaf v) := by
  rw [List.foldl_append]
  cases opts.foldl optMerge a with
  | none => rfl
  | some x => simp [optMerge, Value.merge_leaf]

/-- C5: scope data is loaded in the fixed order default, component,
role, environment, host, with the role scope skipped exactly when the
role name equals the component name; merging in that order makes the
host scope the highest precedence (a scalar it defines wins outright)
and the default scope the lowest (its value survives only when no
later scope defines the key). -/
theorem c5_scope_order_and_precedence (importCfg : String → String → Value)
    (hooks : Hooks) (c : ComponentDef)
    (hds : ∀ d ∈ moduleDictsOf importCfg hooks dataLoaderALL c, ∃ l, d = Value.dict l) :
    (listModules dataLoaderALL c =
      if c.role = c.name then
        [("default", "default"), ("component", c.name),
         ("environment", c.environment), ("host", c.host)]
      else
        [("default", "default"), ("component", c.name), ("role", c.role),
         ("environment", c.environment), ("host", c.host)]) ∧
    (∀ k v ds0 dlast,
      moduleDictsOf importCfg hooks dataLoaderALL c = ds0 ++ [dlast] →
      dlast.lookup k = some (Value.leaf v) →
      (dataLoaderCall importCfg hooks dataLoaderALL c).lookup k =
        some (Value.leaf v)) ∧
    (∀ k d0 rest,
      moduleDictsOf importCfg hooks dataLoaderALL c = d0 :: rest →
      k ≠ "confab" →
      (∀ d ∈ rest, d.lookup k = none) →
      (dataLoaderCall importCfg hooks dataLoaderALL c).lookup k = d0.lookup k) := by
  refine ⟨?_, ?_, ?_⟩
  · by_cases h : c.role = c.name <;>
      simp [listModules, dataLoaderALL, h]
  · intro k v ds0 dlast hsplit hlast
    have hmain := lookup_foldl_merge (moduleDictsOf importCfg hooks dataLoaderALL c)
      [("confab", confabMeta c)] k hds
    rw [show dataLoaderCall importCfg hooks dataLoaderALL c =
      (moduleDictsOf importCfg hooks dataLoaderALL c).foldl Value.merge
        (Value.dict [("confab", confabMeta c)]) from rfl, hmain, hsplit]
    rw [List.map_append]
    simp only [List.map_cons, List.map_nil, hlast]
    exact foldl_optMerge_last_leaf _ _ v
  · intro k d0 rest hsplit hk hrest
    have hmain := lookup_foldl_merge (moduleDictsOf importCfg hooks dataLoaderALL c)
      [("confab", confabMeta c)] k hds
    have hbase : alookup k [("confab", confabMeta c)] = none := by
      have hne : ¬("confab" = k) := fun h => hk h.symm
      simp [alookup, hne]
    rw [show dataLoaderCall importCfg hooks dataLoaderALL c =
      (moduleDictsOf importCfg hooks dataLoaderALL c).foldl Value.merge
        (Value.dict [("confab", confabMeta c)]) from rfl, hmain, hsplit, hbase]
    rw [List.map_cons, List.foldl_cons]
    rw [foldl_optMerge_all_none _ _ (by
      intro o ho
      rw [List.mem_map] at ho
      obtain ⟨d, hd, rfl⟩ := ho
      exact hrest d hd)]
    cases d0.lookup k <;> rfl

theorem c5_hds : ∀ d ∈ moduleDictsOf c5importCfg (fun _ => []) dataLoaderALL c5def,
    ∃ l, d = Value.dict l := by
  intro d hd
  have hlist : moduleDictsOf c5importCfg (fun _ => []) dataLoaderALL c5def =
      [Value.dict [("k", Value.leaf "dv"), ("only", Value.leaf "base")],
       Value.dict [], Value.dict [], Value.dict [],
       Value.dict [("k", Value.leaf "hv")]] := rfl
  rw [hlist] at hd
  simp only [List.mem_cons, List.not_mem_nil, or_false] at hd
  rcases hd with rfl | rfl | rfl | rfl | rfl <;> exact ⟨_, rfl⟩

/-- C5 witness: all five scopes load in order for a role distinct from
its component; the host scope's scalar for `k` wins, and the default
scope's scalar for `only` survives because no later scope defines
it. -/
theorem c5_scope_order_and_precedence_witness :
    listModules dataLoaderALL c5def =
      [("default", "default"), ("component", "comp"), ("role", "r1"),
       ("environment", "env"), ("host", "h1")] ∧
    (dataLoaderCall c5importCfg (fun _ => []) dataLoaderALL c5def).lookup "k" =
      some (Value.leaf "hv") ∧
    (dataLoaderCall c5importCfg (fun _ => []) dataLoaderALL c5def).lookup "only" =
      some (Value.leaf "base") := by
  have h := c5_scope_order_and_precedence c5importCfg (fun _ => []) c5def c5_hds
  refine ⟨by rw [h.1]; rfl, ?_, ?_⟩
  · exact h.2.1 "k" "hv"
      [Value.dict [("k", Value.leaf "dv"), ("only", Value.leaf "base")],
       Value.dict [], Value.dict [], Value.dict []]
      (Value.dict [("k", Value.leaf "hv")]) (by rfl) (by rfl)
  · exact h.2.2 "only"
      (Value.dict [("k", Value.leaf "dv"), ("only", Value.leaf "base")])
      [Value.dict [], Value.dict [], Value.dict [],
       Value.dict [("k", Value.leaf "hv")]]
      (by rfl) (by decide) (by
        intro d hd
        simp only [List.mem_cons, List.not_mem_nil, or_false] at hd
        rcases hd with rfl | rfl | rfl | rfl <;> rfl)

/-- C6: generate ensures the output file's parent directory exists
and writes, at the file's path, the source copied verbatim with its
metadata when the MIME classification is non-renderable, and otherwise
the rendered body followed by exactly one trailing newline with the
source's permissions/timestamps; no other file is touched. -/
theorem c6_generate (generatedDir name : String) (tmpl : TemplateM)
    (shouldRender : Bool) (fs : GenFS) :
    (confFileGenerate generatedDir name tmpl shouldRender fs).files
        (joinPath generatedDir name) =
      some { content := if shouldRender then tmpl.renderedBody ++ "\n"
                        else tmpl.sourceContent
             stat := tmpl.sourceStat } ∧
    dirname (joinPath generatedDir name) ∈
      (confFileGenerate generatedDir name tmpl shouldRender fs).dirs ∧
    (∀ q, q ≠ joinPath generatedDir name →
      (confFileGenerate generatedDir name tmpl shouldRender fs).files q =
        fs.files q) := by
  cases shouldRender <;>
    refine ⟨by simp [confFileGenerate], by simp [confFileGenerate],
      fun q hq => by simp [confFileGenerate, hq]⟩

/-- C6 witness: rendering writes body plus one newline with the
source metadata, and an unrelated path is untouched. -/
theorem c6_generate_witness :
    (confFileGenerate "gen" "etc/app.conf"
      ⟨"tmpl/app.conf", "src", ⟨7, 3⟩, "body"⟩ true
      ⟨fun _ => none, []⟩).files "gen/etc/app.conf" =
      some { content := "body\n", stat := (⟨7, 3⟩ : Stat) } ∧
    (confFileGenerate "gen" "etc/app.conf"
      ⟨"tmpl/app.conf", "src", ⟨7, 3⟩, "body"⟩ true
      ⟨fun _ => none, []⟩).files "gen/other" = none := by
  have h := c6_generate "gen" "etc/app.conf"
    ⟨"tmpl/app.conf", "src", ⟨7, 3⟩, "body"⟩ true ⟨fun _ => none, []⟩
  exact ⟨h.1, by rw [h.2.2 "gen/other" (by decide)]⟩

/-- C7: pull first clears the stale local copy; when the remote
collaborator reports the remote path, its content is fetched into the
local copy, otherwise no local copy is left and the absence is
reported by the "Not found" status flag rather than raised; other
local paths and the remote filesystem are untouched. -/
theorem c7_pull (remotesDir : String) (c : ConfFileM) (st : SyncState) :
    (∀ content, st.remoteFs c.remote = some content →
      (filePull remotesDir c st).1.localFs (joinPath remotesDir c.name) =
        some content ∧ (filePull remotesDir c st).2 = false) ∧
    (st.remoteFs c.remote = none →
      (filePull remotesDir c st).1.localFs (joinPath remotesDir c.name) = none ∧
      (filePull remotesDir c st).2 = true) ∧
    (∀ q, q ≠ joinPath remotesDir c.name →
      (filePull remotesDir c st).1.localFs q = st.localFs q) ∧
    (filePull remotesDir c st).1.remoteFs = st.remoteFs := by
  refine ⟨fun content hc => ?_, fun hc => ?_, fun q hq => ?_, ?_⟩
  · simp [filePull, hc]
  · simp [filePull, hc]
  · cases hc : st.remoteFs c.remote <;> simp [filePull, hc, hq]
  · cases hc : st.remoteFs c.remote <;> simp [filePull, hc]

/-- C7 witness: with the remote file absent, pull leaves no local
copy of a previously present stale file and reports the absence. -/
theorem c7_pull_witness :
    ((filePull "remotes" ⟨"a.conf", []⟩
      ⟨fun p => if p = "remotes/a.conf" then some ["stale"] else none,
       fun _ => none⟩).1.localFs "remotes/a.conf" = none) ∧
    (filePull "remotes" ⟨"a.conf", []⟩
      ⟨fun p => if p = "remotes/a.conf" then some ["stale"] else none,
       fun _ => none⟩).2 = true := by
  exact (c7_pull "remotes" ⟨"a.conf", []⟩
    ⟨fun p => if p = "remotes/a.conf" then some ["stale"] else none,
     fun _ => none⟩).2.1 rfl

theorem pulledState_remoteFs (hostRem : String) (cs : List ConfFileM) (st : SyncState) :
    (pulledState hostRem cs st).remoteFs = st.remoteFs := by
  induction cs generalizing st with
  | nil => rfl
  | cons c rest ih =>
    show (pulledState hostRem rest (filePull hostRem c st).1).remoteFs = st.remoteFs
    rw [ih]
    cases hc : st.remoteFs c.remote <;> simp [filePull, hc]

theorem generatedState_remoteFs (hostGen : String) (cs : List ConfFileM) (st : SyncState) :
    (generatedState hostGen cs st).remoteFs = st.remoteFs := by
  induction cs generalizing st with
  | nil => rfl
  | cons c rest ih =>
    show (generatedState hostGen rest (fileGenerate hostGen c st)).remoteFs = st.remoteFs
    rw [ih]
    rfl

theorem pushFold_frame (hostGen : String) (cs : List ConfFileM) (st : SyncState)
    (p : String) (hp : p ∉ cs.map ConfFileM.remote) :
    (cs.foldl (fun s c => filePush hostGen c s) st).remoteFs p = st.remoteFs p := by
  induction cs generalizing st with
  | nil => rfl
  | cons c rest ih =>
    rw [List.map_cons, List.mem_cons] at hp
    push_neg at hp
    rw [List.foldl_cons, ih _ hp.2]
    simp [filePush, hp.1]

/-- C1: push pushes exactly the files whose diff is truthy, and only
when the assume-yes flag is set or the user answers yes; an empty
changed set means no prompt, no push and no remote write; a declined
confirmation performs zero remote writes; and even a confirmed push
never writes a remote path outside the changed set. -/
theorem c1_push_confirmation_gating (diffFn : List String → List String → List String)
    (generatedDir remotesDir host : String) (conffiles : List ConfFileM)
    (assumeYes userAnswer : Bool) (st : SyncState)
    (changed : List ConfFileM)
    (hchanged : changed = changedFiles diffFn (joinPath generatedDir host)
      (joinPath remotesDir host) conffiles
      (generatedState (joinPath generatedDir host) conffiles
        (pulledState (joinPath remotesDir host) conffiles st))) :
    ((confFilesPush diffFn generatedDir remotesDir host conffiles
        assumeYes userAnswer st).pushed =
      if changed.isEmpty then [] else
      if assumeYes || userAnswer then changed else []) ∧
    (changed = [] →
      (confFilesPush diffFn generatedDir remotesDir host conffiles
        assumeYes userAnswer st).prompted = false ∧
      (confFilesPush diffFn generatedDir remotesDir host conffiles
        assumeYes userAnswer st).nothingMsg = true ∧
      (confFilesPush diffFn generatedDir remotesDir host conffiles
        assumeYes userAnswer st).state.remoteFs = st.remoteFs) ∧
    (changed ≠ [] → assumeYes = false → userAnswer = false →
      (confFilesPush diffFn generatedDir remotesDir host conffiles
        assumeYes userAnswer st).prompted = true ∧
      (confFilesPush diffFn generatedDir remotesDir host conffiles
        assumeYes userAnswer st).state.remoteFs = st.remoteFs) ∧
    (∀ p, p ∉ changed.map ConfFileM.remote →
      (confFilesPush diffFn generatedDir remotesDir host conffiles
        assumeYes userAnswer st).state.remoteFs p = st.remoteFs p) := by
  subst hchanged
  have hst2 : (generatedState (joinPath generatedDir host) conffiles
      (pulledState (joinPath remotesDir host) conffiles st)).remoteFs = st.remoteFs := by
    rw [generatedState_remoteFs, pulledState_remoteFs]
  by_cases hc : (changedFiles diffFn (joinPath generatedDir host)
      (joinPath remotesDir host) conffiles
      (generatedState (joinPath generatedDir host) conffiles
        (pulledState (joinPath remotesDir host) conffiles st))).isEmpty
  · have hnil := List.isEmpty_iff.mp hc
    refine ⟨by simp [confFilesPush, hc], fun _ => ⟨?_, ?_, ?_⟩,
      fun hne => absurd hnil hne, fun p _ => ?_⟩ <;>
      simp [confFilesPush, hc, hst2]
  · have hne : ¬(changedFiles diffFn (joinPath generatedDir host)
        (joinPath remotesDir host) conffiles
        (generatedState (joinPath generatedDir host) conffiles
          (pulledState (joinPath remotesDir host) conffiles st))) = [] :=
      fun h => hc (by simp [h])
    by_cases hyes : (assumeYes || userAnswer) = true
    · refine ⟨by simp [confFilesPush, hc, hyes], fun h => absurd h hne,
        fun _ hay hua => ?_, fun p hp => ?_⟩
      · rw [hay, hua] at hyes
        simp at hyes
      · simp only [confFilesPush, if_neg hc, if_pos hyes]
        rw [pushFold_frame _ _ _ p hp, hst2]
    · have hyes' : (assumeYes || userAnswer) = false := by
        cases h : assumeYes || userAnswer
        · rfl
        · exact absurd h hyes
      have hua : userAnswer = false := by
        cases h : userAnswer
        · rfl
        · rw [h] at hyes'
          simp at hyes'
      have hay : assumeYes = false := by
        cases h : assumeYes
        · rfl
        · rw [h] at hyes'
          simp at hyes'
      refine ⟨?_, fun h => absurd h hne, fun _ _ _ => ⟨?_, ?_⟩, fun p _ => ?_⟩ <;>
        simp [confFilesPush, hc, hay, hua, hst2]

/-- C1 witness: one changed file, no assume-yes flag and a declined
confirmation: the user is prompted, nothing is pushed, and the remote
file keeps its old content. -/
theorem c1_push_confirmation_gating_witness :
    (confFilesPush (fun a b => if a = b then [] else ["x"]) "gen" "rem" "h"
      [⟨"a.conf", ["new"]⟩] false false
      ⟨fun _ => none, fun p => if p = "/a.conf" then some ["old"] else none⟩).prompted
      = true ∧
    (confFilesPush (fun a b => if a = b then [] else ["x"]) "gen" "rem" "h"
      [⟨"a.conf", ["new"]⟩] false false
      ⟨fun _ => none, fun p => if p = "/a.conf" then some ["old"] else none⟩).pushed
      = [] ∧
    (confFilesPush (fun a b => if a = b then [] else ["x"]) "gen" "rem" "h"
      [⟨"a.conf", ["new"]⟩] false false
      ⟨fun _ => none, fun p => if p = "/a.conf" then some ["old"] else none⟩).state.remoteFs
      "/a.conf" = some ["old"] := by
  have h := c1_push_confirmation_gating (fun a b => if a = b then [] else ["x"])
    "gen" "rem" "h" [⟨"a.conf", ["new"]⟩] false false
    ⟨fun _ => none, fun p => if p = "/a.conf" then some ["old"] else none⟩
    [⟨"a.conf", ["new"]⟩] (by decide)
  obtain ⟨hprompt, hremote⟩ := h.2.2.1 (by decide) rfl rfl
  refine ⟨hprompt, ?_, ?_⟩
  · rw [h.1]
    decide
  · rw [congrFun hremote "/a.conf"]
    rfl

theorem pulledState_localFs_frame (hostRem : String) (cs : List ConfFileM)
    (st : SyncState) (p : String)
    (hp : p ∉ cs.map (fun c => joinPath hostRem c.name)) :
    (pulledState hostRem cs st).localFs p = st.localFs p := by
  induction cs generalizing st with
  | nil => rfl
  | cons c rest ih =>
    rw [List.map_cons, List.mem_cons] at hp
    push_neg at hp
    show (pulledState hostRem rest (filePull hostRem c st).1).localFs p = st.localFs p
    rw [ih _ hp.2]
    cases hc : st.remoteFs c.remote <;> simp [filePull, hc, hp.1]

theorem generatedState_localFs_frame (hostGen : String) (cs : List ConfFileM)
    (st : SyncState) (p : String)
    (hp : p ∉ cs.map (fun c => joinPath hostGen c.name)) :
    (generatedState hostGen cs st).localFs p = st.localFs p := by
  induction cs generalizing st with
  | nil => rfl
  | cons c rest ih =>
    rw [List.map_cons, List.mem_cons] at hp
    push_neg at hp
    show (generatedState hostGen rest (fileGenerate hostGen c st)).localFs p = st.localFs p
    rw [ih _ hp.2]
    simp [fileGenerate, hp.1]

/-- C9 counterexample: the remotes working directory is NOT cleared
before a pull pass: a stale file inside the host's remotes directory
that is not named by the current set survives `ConfFiles.pull`
untouched, contradicting the claim that both working directories are
cleared before each pass. -/
theorem c9_counterexample :
    (confFilesPull "rem" "h" [⟨"a.conf", ["new"]⟩]
      ⟨fun p => if p = "rem/h/stale.conf" then some ["old"] else none,
       fun _ => none⟩).localFs "rem/h/stale.conf" = some ["old"] := by
  decide

/-- C9 amended: the host's generated directory is cleared as a whole
before each generate pass (every path under it that the pass does not
write ends up absent), but the remotes directory is not cleared before
a pull pass — each file only clears its own stale copy, so any path
not named by the current set keeps its previous content. -/
theorem c9_amended_clearing (generatedDir remotesDir host : String)
    (cs : List ConfFileM) (st : SyncState) :
    (∀ p, underDir (joinPath generatedDir host) p = true →
      p ∉ cs.map (fun c => joinPath (joinPath generatedDir host) c.name) →
      (confFilesGenerate generatedDir host cs st).localFs p = none) ∧
    (∀ p, p ∉ cs.map (fun c => joinPath (joinPath remotesDir host) c.name) →
      (confFilesPull remotesDir host cs st).localFs p = st.localFs p) := by
  constructor
  · intro p hpre hp
    show (generatedState (joinPath generatedDir host) cs
      { st with localFs := fun q =>
          if underDir (joinPath generatedDir host) q then none
          else st.localFs q }).localFs p = none
    rw [generatedState_localFs_frame _ _ _ _ hp]
    simp [hpre]
  · intro p hp
    exact pulledState_localFs_frame _ _ _ _ hp

/-- C9 amended witness: the generate pass removes a stale file under
the host's generated directory, while the pull pass leaves a stale
file under the host's remotes directory in place. -/
theorem c9_amended_clearing_witness :
    (confFilesGenerate "gen" "h" [⟨"a.conf", ["new"]⟩]
      ⟨fun p => if p = "gen/h/stale.conf" then some ["old"] else none,
       fun _ => none⟩).localFs "gen/h/stale.conf" = none ∧
    (confFilesPull "rem" "h" [⟨"a.conf", ["new"]⟩]
      ⟨fun p => if p = "rem/h/old.conf" then some ["past"] else none,
       fun _ => none⟩).localFs "rem/h/old.conf" = some ["past"] := by
  constructor
  · exact (c9_amended_clearing "gen" "rem" "h" [⟨"a.conf", ["new"]⟩]
      ⟨fun p => if p = "gen/h/stale.conf" then some ["old"] else none,
       fun _ => none⟩).1 "gen/h/stale.conf" (by decide) (by decide)
  · rw [(c9_amended_clearing "gen" "rem" "h" [⟨"a.conf", ["new"]⟩]
      ⟨fun p => if p = "rem/h/old.conf" then some ["past"] else none,
       fun _ => none⟩).2 "rem/h/old.conf" (by decide)]
    rfl

end Confab
